import Mathlib

/-!
Verification development for the DICOM-style file reader in
`src/lib/file-reader.ts` (repository Notheryne/image-annotator).

The TypeScript source is shallowly embedded below:
  * byte buffers are `List Nat` (each entry a byte value 0..255),
  * JavaScript numbers appearing in the pixel pipeline are `ℚ`
    (every arithmetic step exercised by the claims is exact in binary
    floating point, so `ℚ` agrees with the IEEE evaluation there),
  * thrown exceptions are `Except Unit`,
  * `undefined`/`null` values are `Option`.

Modules imported by the source file but absent from `src/`
(`../constants/index`, `./converter`, `./helpers`, the `bufferpack` and
`lodash` libraries) are modelled from the specification; each such
definition carries a doc comment saying so.
-/

/-! ## Generic JavaScript / lodash helpers -/

/-- lodash `inRange(x, a, b)`: `a ≤ x < b` (end exclusive). -/
def lodashInRange (x a b : Nat) : Bool :=
  decide (a ≤ x ∧ x < b)

/-- Little/big-endian unsigned 16-bit value from two bytes
(`Bufferpack.unpack` token `H`; modelled from the spec, section 4.1). -/
def u16 (isLittleEndian : Bool) (b0 b1 : Nat) : Nat :=
  if isLittleEndian then b0 + 256 * b1 else b1 + 256 * b0

/-- Little/big-endian unsigned 32-bit value from four bytes
(`Bufferpack.unpack` token `L`; modelled from the spec, section 4.1). -/
def u32 (isLittleEndian : Bool) (b0 b1 b2 b3 : Nat) : Nat :=
  if isLittleEndian then b0 + 256 * b1 + 65536 * b2 + 16777216 * b3
  else b3 + 256 * b2 + 65536 * b1 + 16777216 * b0

/-- Digit character used by JavaScript `Number.prototype.toString(base)`
for bases up to 16: `0`-`9` then lowercase `a`-`f`. -/
def digitCharJS (n : Nat) : Char :=
  if n < 10 then Char.ofNat (48 + n) else Char.ofNat (87 + n)

/-- Fuel-driven base conversion accumulating most-significant digit first;
the computational core of JavaScript `n.toString(base)` for `n : Nat`. -/
def natToBaseAux (base : Nat) : Nat → Nat → List Char → List Char
  | 0, _, acc => acc
  | fuel + 1, n, acc =>
    if n < base then digitCharJS n :: acc
    else natToBaseAux base fuel (n / base) (digitCharJS (n % base) :: acc)

/-- JavaScript `n.toString(base)` for a natural number `n`
(no leading zeros; `0` renders as `"0"`). -/
def jsToStringBase (base n : Nat) : List Char :=
  natToBaseAux base (n + 1) n []

/-- Value of a binary digit string, as computed by `parseInt(bits, 2)`
on the `'0'`/`'1'` strings produced inside `pixelDataToSignedInt`. -/
def parseBin (cs : List Char) : Nat :=
  cs.foldl (fun acc c => acc * 2 + (if c = '1' then 1 else 0)) 0

/-- Value of a decimal digit string (proof helper: used to invert the
decimal rendering inside safe keys). -/
def decVal (cs : List Char) : Nat :=
  cs.foldl (fun a c => a * 10 + (c.toNat - 48)) 0

/-- Value of one hexadecimal digit character (`0`-`9`, `a`-`f`, `A`-`F`);
other characters contribute 0 (the claims only evaluate valid hex input). -/
def hexDigitVal (c : Char) : Nat :=
  if 48 ≤ c.toNat ∧ c.toNat ≤ 57 then c.toNat - 48
  else if 97 ≤ c.toNat ∧ c.toNat ≤ 102 then c.toNat - 87
  else if 65 ≤ c.toNat ∧ c.toNat ≤ 70 then c.toNat - 55
  else 0

/-- JavaScript `parseInt(s, 16)` on the well-formed hex strings the
pixel pipeline builds. -/
def parseHexJS (s : String) : Nat :=
  s.toList.foldl (fun acc c => acc * 16 + hexDigitVal c) 0

/-- lodash `chunk`, fuel-driven so that it reduces in the kernel. -/
def chunkGo (n : Nat) : Nat → List α → List (List α)
  | 0, _ => []
  | _ + 1, [] => []
  | fuel + 1, l => l.take n :: chunkGo n fuel (l.drop n)

/-- lodash `chunk(l, n)`: split `l` into groups of `n`, last group may be
shorter; `chunk(l, 0)` is `[]`. -/
def chunkList (n : Nat) (l : List α) : List (List α) :=
  if n = 0 then [] else chunkGo n l.length l

/-- lodash `padStart(s, n, c)`. -/
def padStartStr (s : String) (n : Nat) (c : Char) : String :=
  if s.length ≥ n then s
  else String.mk (List.replicate (n - s.length) c) ++ s

/-- lodash `takeRight` on the characters of a string, re-joined. -/
def takeRightStr (s : String) (k : Nat) : String :=
  String.mk (s.toList.drop (s.toList.length - k))

/-- Trailing NULs and spaces removed (string-VR trimming;
modelled from the spec, section 4.3). -/
def trimTrailing (cs : List Char) : List Char :=
  (cs.reverse.dropWhile (fun c => c = ' ' ∨ c.toNat = 0)).reverse

/-- JavaScript `keyword[0].toLowerCase() + keyword.slice(1)`
(used by `getTagsGroup`; keywords in play are nonempty). -/
def lowerFirst (s : String) : String :=
  match s.toList with
  | [] => ""
  | c :: rest => String.mk (c.toLower :: rest)

/-! ## Uint8Helpers (source lines 49-77) -/

namespace Uint8Helpers

/-- `array.slice(0, n)` and `array.slice(n)`. -/
def splitArray (array : List Nat) (firstArrayElements : Nat) :
    List Nat × List Nat :=
  (array.take firstArrayElements, array.drop firstArrayElements)

/-- `array.slice(start, start + range)` — clamps at the end of the buffer
exactly as `Uint8Array.prototype.slice` does. -/
def getArrayRange (array : List Nat) (start range : Nat) : List Nat :=
  (array.drop start).take range

/-- `String.fromCharCode` over the bytes, joined. -/
def arrayToText (array : List Nat) : String :=
  String.mk (array.map Char.ofNat)

end Uint8Helpers

/-! ## Preamble reader (source lines 90-102) -/

/-- Modelled from the spec: `Constants.DICOM_MAGIC_PREFIX` lives in the
absent `../constants/index` module; the spec (sections 4.7 and 6) fixes it
to the ASCII string DICM. -/
def dicomMagic : String := "DICM"

structure PreambleResult where
  preamble : List Nat
  newCursorPosition : Nat
deriving DecidableEq

/-- `readPreamble` (source lines 90-102). -/
def readPreamble (bytes : List Nat) : PreambleResult :=
  let fileMetaInformationHeader := (Uint8Helpers.splitArray bytes 132).1
  let split2 := Uint8Helpers.splitArray fileMetaInformationHeader 128
  let magicAsText := Uint8Helpers.arrayToText split2.2
  if magicAsText ≠ dicomMagic then ⟨[], 0⟩
  else ⟨split2.1, 132⟩

/-! ## Tag dictionary and constants (imported from the absent
`../constants/index` module; modelled from the spec) -/

/-- Dictionary entry tuple `(VR, VM, Name, Retired, Keyword)`
(spec, section 4.2). -/
structure DictEntry where
  VR : String
  VM : String
  name : String
  retired : String
  keyword : String
deriving DecidableEq

/-- Modelled from the spec: `GroupLengthEntry` from the absent constants
module — used whenever `element == 0x0000`; VR `UL`, keyword `GroupLength`
(spec, section 4.2). -/
def GroupLengthEntry : DictEntry :=
  ⟨"UL", "1", "Group Length", "", "GroupLength"⟩

/-- Modelled from the spec: the static `DicomDictionary` table is supplied
by the absent constants module (spec, sections 1 and 4.2; entries named by
the spec: TransferSyntaxUID at `(0x0002,0x0010)` in section 6, PatientName
at `(0x0010,0x0010)` in section 8, PixelData at `(0x7FE0,0x0010)` and the
group-0x0028 pixel attributes in section 4.8). Keyed by the canonical
lowercase 8-hex-digit tag string. -/
def DicomDictionary : String → Option DictEntry
  | "00020010" => some ⟨"UI", "1", "Transfer Syntax UID", "", "TransferSyntaxUID"⟩
  | "00080018" => some ⟨"UI", "1", "SOP Instance UID", "", "SOPInstanceUID"⟩
  | "00100010" => some ⟨"PN", "1", "Patient Name", "", "PatientName"⟩
  | "00100020" => some ⟨"LO", "1", "Patient ID", "", "PatientID"⟩
  | "00280002" => some ⟨"US", "1", "Samples per Pixel", "", "SamplesPerPixel"⟩
  | "00280004" => some ⟨"CS", "1", "Photometric Interpretation", "", "PhotometricInterpretation"⟩
  | "00280100" => some ⟨"US", "1", "Bits Allocated", "", "BitsAllocated"⟩
  | "00280101" => some ⟨"US", "1", "Bits Stored", "", "BitsStored"⟩
  | "00280102" => some ⟨"US", "1", "High Bit", "", "HighBit"⟩
  | "00280103" => some ⟨"US", "1", "Pixel Representation", "", "PixelRepresentation"⟩
  | "00281050" => some ⟨"DS", "1", "Window Center", "", "WindowCenter"⟩
  | "00281051" => some ⟨"DS", "1", "Window Width", "", "WindowWidth"⟩
  | "00281052" => some ⟨"DS", "1", "Rescale Intercept", "", "RescaleIntercept"⟩
  | "00281053" => some ⟨"DS", "1", "Rescale Slope", "", "RescaleSlope"⟩
  | "7fe00010" => some ⟨"OW", "1", "Pixel Data", "", "PixelData"⟩
  | _ => none

/-- Modelled from the spec: `ExtraLengthVRs` from the absent constants
module — `OB OW OF SQ UT UN` (spec, section 3). -/
def ExtraLengthVRs : List String := ["OB", "OW", "OF", "SQ", "UT", "UN"]

/-! Modelled from the spec: the transfer-syntax UIDs of `KnownUIDs` in the
absent constants module (spec, section 4.6 table). -/
namespace KnownUIDs

def ImplicitVRLittleEndian : String := "1.2.840.10008.1.2"

def ExplicitVRLittleEndian : String := "1.2.840.10008.1.2.1"

def ExplicitVRBigEndian : String := "1.2.840.10008.1.2.2"

def DeflatedExplicitVRLittleEndian : String := "1.2.840.10008.1.2.1.99"

end KnownUIDs

/-- Modelled from the spec: the VR keys of the `converters` table in the
absent `./converter` module (`converters[VR]` truthiness is what
`readOrGuessIsImplicitVrAndIsLittleEndian` probes); the spec, section 4.3,
lists the converted VRs. -/
def knownConverterVRs : List String :=
  ["UI", "CS", "SH", "LO", "ST", "LT", "UT", "PN", "AE", "AS", "DA", "TM",
   "DT", "IS", "DS", "US", "SS", "UL", "SL", "FL", "FD", "AT", "OB", "OW",
   "OF", "UN", "SQ"]

/-! ## Converted values -/

/-- Typed value of an element, produced by the converter.  JavaScript
stores heterogeneous values in one field; the claims only exercise
string-valued and number-valued tags plus raw bytes. -/
inductive DValue where
  | num (q : ℚ)
  | str (s : String)
  | bytes (b : List Nat)
  | nullv
deriving DecidableEq

/-- `ITagInfo` (source `../types`): raw value, length and VR. -/
structure ITagInfo where
  rawValue : List Nat
  length : Nat
  VR : String
deriving DecidableEq

/-- List of string-decoded VRs (spec, section 4.3 table, first row). -/
def stringVRs : List String :=
  ["UI", "CS", "SH", "LO", "ST", "LT", "UT", "PN", "AE", "AS", "DA", "TM", "DT"]

/-- Modelled from the spec: `convertValue` lives in the absent
`./converter` module.  Spec section 4.3: string VRs decode to ASCII with
trailing NULs and spaces trimmed; `US`/`UL` decode to unsigned integers;
the remaining VRs are kept as raw bytes.  Only the behaviour exercised by
the claims (string VRs and raw bytes) matters downstream. -/
def convertValue (VR : String) (tagInfo : ITagInfo) (isLittleEndian : Bool) :
    DValue :=
  if VR ∈ stringVRs then
    .str (String.mk (trimTrailing (Uint8Helpers.arrayToText tagInfo.rawValue).toList))
  else if (VR = "US" ∨ VR = "SS") ∧ tagInfo.length = 2 then
    .num (u16 isLittleEndian (tagInfo.rawValue.getD 0 0) (tagInfo.rawValue.getD 1 0))
  else if (VR = "UL" ∨ VR = "SL") ∧ tagInfo.length = 4 then
    .num (u32 isLittleEndian (tagInfo.rawValue.getD 0 0) (tagInfo.rawValue.getD 1 0)
      (tagInfo.rawValue.getD 2 0) (tagInfo.rawValue.getD 3 0))
  else .bytes tagInfo.rawValue

/-! ## Tag construction (source lines 142-255) -/

/-- `getHexRepresentation` (source lines 142-146): lowercase hex, padded
or truncated on the left to 4 digits. -/
def getHexRepresentation (group element : Nat) : String × String :=
  (takeRightStr ("0000" ++ String.mk (jsToStringBase 16 group)) 4,
   takeRightStr ("0000" ++ String.mk (jsToStringBase 16 element)) 4)

/-- `getTagName` (source lines 148-161). -/
def getTagName (dicomDictionaryEntry : Option DictEntry)
    (isPrivateTag : Bool := false) : String :=
  if isPrivateTag then "PrivateTag"
  else
    match dicomDictionaryEntry with
    | none => "Unknown"
    | some e => e.name

/-- The `values` record passed to `createTag` (`ITagValues` in the
source); `VR` may be `null` (implicit mode). -/
structure ITagValues where
  VR : Option String
  length : Nat
  rawValue : List Nat
  value : DValue
deriving DecidableEq

/-- A parsed tag (`ITag` in the source).  The nested `representations`
record is flattened into `repGroup`/`repElement`/`hexGroup`/`hexElement`/
`repName`; `representation` is the 8-hex-digit string form. -/
structure DTag where
  VR : String
  length : Nat
  rawValue : List Nat
  value : DValue
  representation : String
  repGroup : Nat
  repElement : Nat
  hexGroup : String
  hexElement : String
  repName : String
  name : String
  VM : String
  keyword : String
  retired : String
deriving DecidableEq

/-- JavaScript truthiness of an optional string (`!VR`, `VR || …`). -/
def strTruthy (v : Option String) : Bool :=
  match v with
  | some s => s ≠ ""
  | none => false

/-- `VR || fallback` on an optional string. -/
def vrOrElse (v : Option String) (fallback : String) : String :=
  match v with
  | some s => if s = "" then fallback else s
  | none => fallback

/-- `createTag` (source lines 163-219).  For an even-group tag whose VR
is falsy and which is not in the dictionary (and is not a group-length
element), the source evaluates `dicomDictionaryEntry[…]` on `undefined`
and throws — hence `Except`. -/
def createTag (group element : Nat) (values : ITagValues) :
    Except Unit DTag :=
  let isPrivateTag := group % 2 ≠ 0
  let hexes := getHexRepresentation group element
  let stringRepresentation := hexes.1 ++ hexes.2
  let dicomDictionaryEntry :=
    if hexes.2 = "0000" then some GroupLengthEntry
    else DicomDictionary stringRepresentation
  if isPrivateTag then
    .ok ⟨"Unknown-PrivateTag", values.length, values.rawValue, values.value,
      stringRepresentation, group, element, hexes.1, hexes.2,
      getTagName dicomDictionaryEntry true, "Unknown-PrivateTag",
      "Unknown-PrivateTag", "Unknown-PrivateTag", "Unknown-PrivateTag"⟩
  else
    if strTruthy values.VR then
      .ok ⟨vrOrElse values.VR "", values.length, values.rawValue, values.value,
        stringRepresentation, group, element, hexes.1, hexes.2,
        getTagName dicomDictionaryEntry, getTagName dicomDictionaryEntry,
        (dicomDictionaryEntry.map DictEntry.VM).getD "Unknown",
        (dicomDictionaryEntry.map DictEntry.keyword).getD "Unknown",
        (dicomDictionaryEntry.map DictEntry.retired).getD "Unknown"⟩
    else
      match dicomDictionaryEntry with
      | none => .error ()
      | some entry =>
        .ok ⟨entry.VR, values.length, values.rawValue, values.value,
          stringRepresentation, group, element, hexes.1, hexes.2,
          getTagName dicomDictionaryEntry, getTagName dicomDictionaryEntry,
          entry.VM, entry.keyword, entry.retired⟩

/-- `getTagInfo` (source lines 221-255), at the shape of its only call
site in `readDataset`: `group` and `element` are always numbers there and
`VR` is a string or `null`.  The source throws when group, element and VR
are all falsy — i.e. on `(0x0000, 0x0000)` with a `null`/empty VR. -/
def getTagInfo (rawValue : List Nat) (length : Nat) (group element : Nat)
    (VR : Option String) : Except Unit ITagInfo :=
  if group = 0 ∧ element = 0 ∧ ¬ strTruthy VR then .error ()
  else if strTruthy VR then .ok ⟨rawValue, length, vrOrElse VR ""⟩
  else
    let hexes := getHexRepresentation group element
    let dicomDictionaryEntry := DicomDictionary (hexes.1 ++ hexes.2)
    let guessVR :=
      if hexes.2 = "0000" then GroupLengthEntry.VR
      else
        match dicomDictionaryEntry with
        | some e => e.VR
        | none => ""
    .ok ⟨rawValue, length, guessVR⟩

/-! ## Element parser (source lines 257-302) -/

/-- `isUppercaseLetter` inside `unpack` (source lines 265-266):
lodash `inRange(charCodeAt(0), 65, 90)` — note the EXCLUSIVE upper end,
so code 0x5A (`Z`) does NOT pass.  The test is applied to the decoded VR
characters; since every byte is < 256 the character code equals the raw
byte, so the test is stated on the byte. -/
def isUppercaseLetter (code : Nat) : Bool :=
  lodashInRange code 65 90

/-- Result tuple of `unpack`: `[group, elem, VR, length, cursorChange]`.
`VR = none` models the `null` VR of the implicit decoding. -/
structure UnpackedElement where
  group : Nat
  elem : Nat
  VR : Option String
  length : Nat
  cursorChange : Nat
deriving DecidableEq

/-- `unpack` (source lines 257-302).  `tagData` is the 8 header bytes at
`cursor`; `data` is the whole remaining buffer (used for the extra-length
read at `cursor + 8`).  The endian pattern strings of the source
(`getEndianPattern` from the absent helpers module, spec section 4.1)
are realised directly by `u16`/`u32` with the endian flag. -/
def unpack (data tagData : List Nat) (isImplicitVR isLittleEndian : Bool)
    (cursor : Nat) : UnpackedElement :=
  let defaultTagLength := 8
  let group := u16 isLittleEndian (tagData.getD 0 0) (tagData.getD 1 0)
  let elem := u16 isLittleEndian (tagData.getD 2 0) (tagData.getD 3 0)
  if isImplicitVR then
    ⟨group, elem, none,
      u32 isLittleEndian (tagData.getD 4 0) (tagData.getD 5 0)
        (tagData.getD 6 0) (tagData.getD 7 0), defaultTagLength⟩
  else
    let v0 := tagData.getD 4 0
    let v1 := tagData.getD 5 0
    let VR := String.mk [Char.ofNat v0, Char.ofNat v1]
    let length16 := u16 isLittleEndian (tagData.getD 6 0) (tagData.getD 7 0)
    if ¬ (isUppercaseLetter v0 ∧ isUppercaseLetter v1) then
      ⟨group, elem, none,
        u32 isLittleEndian (tagData.getD 4 0) (tagData.getD 5 0)
          (tagData.getD 6 0) (tagData.getD 7 0), defaultTagLength⟩
    else
      if VR ∈ ExtraLengthVRs then
        let extraLengthInfo :=
          Uint8Helpers.getArrayRange data (cursor + defaultTagLength) 4
        let trueLength :=
          u32 isLittleEndian (extraLengthInfo.getD 0 0) (extraLengthInfo.getD 1 0)
            (extraLengthInfo.getD 2 0) (extraLengthInfo.getD 3 0)
        ⟨group, elem, some VR, trueLength, defaultTagLength + 4⟩
      else ⟨group, elem, some VR, length16, defaultTagLength⟩

/-! ## Safe keys and datasets (source lines 304-312) -/

/-- A dataset: insertion-ordered association list from safe key to tag
(the source uses a JavaScript object; `getSafeKey` guarantees each
inserted key is fresh, so insertion is appending). -/
abbrev Dataset := List (String × DTag)

/-- lodash `has(object, key)`. -/
def hasKey (ds : Dataset) (k : String) : Bool :=
  ds.any (fun p => p.1 == k)

/-- The key string `key ++ "-" ++ index` built by `getSafeKey`. -/
def mkKey (key : String) (index : Nat) : String :=
  key ++ "-" ++ Nat.repr index

/-- The `while` loop of `getSafeKey`: try `key-start`, `key-(start+1)`, …
until an absent key is found.  `index === 0 ? key : …` never fires since
the index starts at 1. -/
def getSafeKeyFrom (object : Dataset) (key : String) : Nat → Nat → String
  | start, 0 => mkKey key start
  | start, fuel + 1 =>
    if hasKey object (mkKey key start) then getSafeKeyFrom object key (start + 1) fuel
    else mkKey key start

/-- `getSafeKey` (source lines 304-312).  Fuel `object.length` suffices:
the scan can pass at most `object.length` present keys, and the key
returned on fuel exhaustion is absent for the same counting reason, so
this equals the unbounded JavaScript loop. -/
def getSafeKey (object : Dataset) (key : String) : String :=
  getSafeKeyFrom object key 1 object.length

/-- The insertion `dataset[getSafeKey(dataset, tag.keyword)] = tag`
(source line 387): a fresh key, hence appended in insertion order. -/
def insertTag (ds : Dataset) (tag : DTag) : Dataset :=
  ds ++ [(getSafeKey ds tag.keyword, tag)]

/-- Iterating the `readDataset` insertion over a list of parsed tags. -/
def insertTags (ds : Dataset) (tags : List DTag) : Dataset :=
  tags.foldl insertTag ds

/-! ## Mode probe (source lines 531-569) -/

/-- `StopWhenFunction` (source lines 104-108). -/
abbrev StopWhen := Nat → Option String → Nat → Bool

/-- `_.isFunction(stopWhen) && stopWhen(...)` at the call sites. -/
def stopTest (stopWhen : Option StopWhen) (group : Nat) (VR : Option String)
    (length : Nat) : Bool :=
  match stopWhen with
  | some f => f group VR length
  | none => false

/-- `_isImplicitVr` (source lines 531-569).  The probe window uses lodash
`inRange(b, 0x40, 0x5b)` — 0x40..0x5A inclusive, a broader test than the
one inside `unpack`. -/
def _isImplicitVr (bytes : List Nat) (cursor : Nat)
    (isImplicitVRAssumed isLittleEndian isSequence : Bool)
    (stopWhen : Option StopWhen) : Bool :=
  if isSequence ∧ isImplicitVRAssumed then true
  else
    let data := Uint8Helpers.getArrayRange bytes cursor 6
    let split := Uint8Helpers.splitArray data 4
    let tagBytes := split.1
    let rawVR := split.2
    if rawVR.length < 2 then isImplicitVRAssumed
    else
      let foundImplicit :=
        ¬ (lodashInRange (rawVR.getD 0 0) 64 91 ∧ lodashInRange (rawVR.getD 1 0) 64 91)
      if foundImplicit ≠ isImplicitVRAssumed then
        let tag0 := u16 isLittleEndian (tagBytes.getD 0 0) (tagBytes.getD 1 0)
        let vr := Uint8Helpers.arrayToText rawVR
        if stopTest stopWhen tag0 (some vr) 0 then foundImplicit
        else if foundImplicit ∧ isSequence then true
        else foundImplicit
      else foundImplicit

/-! ## Dataset reader (source lines 314-529) -/

/-- The `while (true)` loop of `readDataset` (source lines 341-403),
driven by fuel.  Each continuing iteration advances the offset `d` by at
least 8, and the loop exits as soon as fewer than 8 bytes remain, so fuel
`data.length + 1` (supplied by `readDataset`) is never exhausted.
On an undefined length (`0xFFFFFFFF`) the source only logs — there is no
`break` — so the loop continues right after the header; likewise a zero
length adds nothing and continues.  `getTagInfo`/`createTag` can throw,
which aborts the whole read (`Except.error`). -/
def readDatasetLoop (data : List Nat) (isImplicitVR isLittleEndian : Bool)
    (stopWhen : Option StopWhen) :
    Nat → Nat → Dataset → Except Unit (Dataset × Nat)
  | 0, d, ds => .ok (ds, d)
  | fuel + 1, d, ds =>
    let tagData := Uint8Helpers.getArrayRange data d 8
    if tagData.length ≠ 8 then .ok (ds, d)
    else
      let u := unpack data tagData isImplicitVR isLittleEndian d
      if stopTest stopWhen u.group u.VR u.length then .ok (ds, d)
      else
        let d1 := d + u.cursorChange
        if u.length ≠ 4294967295 then
          if u.length > 0 then
            let value := Uint8Helpers.getArrayRange data d1 u.length
            let d2 := d1 + u.length
            if u.VR ≠ some "NONE" then
              match getTagInfo value u.length u.group u.elem u.VR with
              | .error e => .error e
              | .ok tagInfo =>
                match createTag u.group u.elem
                    ⟨u.VR, u.length, value,
                      convertValue (vrOrElse u.VR tagInfo.VR) tagInfo isLittleEndian⟩ with
                | .error e => .error e
                | .ok tag =>
                  readDatasetLoop data isImplicitVR isLittleEndian stopWhen fuel d2
                    (insertTag ds tag)
            else readDatasetLoop data isImplicitVR isLittleEndian stopWhen fuel d2 ds
          else readDatasetLoop data isImplicitVR isLittleEndian stopWhen fuel d1 ds
        else readDatasetLoop data isImplicitVR isLittleEndian stopWhen fuel d1 ds

/-- `readDataset` (source lines 314-529). -/
def readDataset (bytes : List Nat) (cursor : Nat)
    (isImplicitVRAssumed isLittleEndian : Bool) (stopWhen : Option StopWhen) :
    Except Unit (Dataset × Nat) :=
  let data := (Uint8Helpers.splitArray bytes cursor).2
  let isImplicitVR :=
    _isImplicitVr bytes cursor isImplicitVRAssumed isLittleEndian true stopWhen
  match readDatasetLoop data isImplicitVR isLittleEndian stopWhen
      (data.length + 1) 0 [] with
  | .error e => .error e
  | .ok (dataset, cursorPositionChange) => .ok (dataset, cursor + cursorPositionChange)

/-- `_notGroup0000` (source lines 571-573). -/
def _notGroup0000 : StopWhen := fun group _ _ => group ≠ 0

/-- `_notGroup0002` (source lines 575-577). -/
def _notGroup0002 : StopWhen := fun group _ _ => group ≠ 2

/-- `readFileMetaInfo` (source lines 579-581). -/
def readFileMetaInfo (bytes : List Nat) (cursor : Nat) :
    Except Unit (Dataset × Nat) :=
  readDataset bytes cursor false true (some _notGroup0002)

/-- `readCommandSetElements` (source lines 583-585). -/
def readCommandSetElements (bytes : List Nat) (cursor : Nat) :
    Except Unit (Dataset × Nat) :=
  readDataset bytes cursor false true (some _notGroup0000)

/-! ## Mode detection from transfer syntax (source lines 606-654) -/

/-- `readOrGuessIsImplicitVrAndIsLittleEndian` (source lines 606-654),
returning `(isImplicitVR, isLittleEndian)`.  With no transfer-syntax tag
the first six dataset bytes are probed with pattern `<HH2s`; a VR known
to the converter table means explicit VR, and `group >= 1024` selects
big-endian.  With a transfer-syntax tag the mode table on its UID value
applies (the deflated case logs and falls through to the defaults). -/
def readOrGuessIsImplicitVrAndIsLittleEndian (bytes : List Nat) (cursor : Nat)
    (transferSyntax : Option DTag) : Bool × Bool :=
  let peek := Uint8Helpers.getArrayRange bytes cursor 1
  if peek.length = 0 then (true, true)
  else
    match transferSyntax with
    | none =>
      let data := Uint8Helpers.getArrayRange bytes cursor 6
      let group := u16 true (data.getD 0 0) (data.getD 1 0)
      let VR := Uint8Helpers.arrayToText (Uint8Helpers.getArrayRange data 4 2)
      if VR ∈ knownConverterVRs then
        if group ≥ 1024 then (false, false) else (false, true)
      else (true, true)
    | some ts =>
      match ts.value with
      | .str s =>
        if s = KnownUIDs.ImplicitVRLittleEndian then (true, true)
        else if s = KnownUIDs.ExplicitVRLittleEndian then (false, true)
        else if s = KnownUIDs.ExplicitVRBigEndian then (false, false)
        else if s = KnownUIDs.DeflatedExplicitVRLittleEndian then (true, true)
        else (false, true)
      | _ => (false, true)

/-! ## Tag lookup utilities (source lines 656-714) -/

/-- The `representation` argument of `getTagValue`/`getMatchedTag`:
a string, a pair of numbers, or a pair of strings (the source also
accepts other array lengths and rejects them with a log; those are not
reachable from the claims). -/
inductive TagIdent where
  | str (s : String)
  | natPair (g e : Nat)
  | strPair (g e : String)

/-- JavaScript `toLowerCase` on the ASCII strings in play
(list-based so that it reduces in the kernel). -/
def strToLower (s : String) : String :=
  String.mk (s.toList.map Char.toLower)

/-- JavaScript `toUpperCase` on the ASCII strings in play. -/
def strToUpper (s : String) : String :=
  String.mk (s.toList.map Char.toUpper)

/-- The whitespace/parenthesis/comma stripping of `getMatchedTag`:
`replace(/(\(|,|\s)/g, '')`. -/
def stripRepChars (s : String) : String :=
  String.mk (s.toList.filter
    (fun c => ¬ (c = '(' ∨ c = ',' ∨ c = ' ' ∨ c = '\t' ∨ c = '\n' ∨ c = '\r')))

/-- `getMatchedTag` (source lines 656-684). -/
def getMatchedTag (representation : TagIdent) (tag : DTag) : Bool :=
  match representation with
  | .natPair g e => tag.repGroup = g ∧ tag.repElement = e
  | .strPair g e =>
    [strToLower tag.hexGroup, strToLower tag.hexElement] =
      [strToLower g, strToLower e]
  | .str s =>
    if strToLower tag.name = strToLower s ∨ strToLower tag.keyword = strToLower s
    then true
    else strToLower tag.representation = stripRepChars (strToLower s)

/-- `getTagValue` (source lines 686-701): first matching tag, else
`null`/`undefined`. -/
def getTagValue (dataset : Dataset) (representation : TagIdent) : Option DTag :=
  (dataset.find? (fun p => getMatchedTag representation p.2)).map (fun p => p.2)

/-- JavaScript object insertion `{ ...acc, [k]: tag }`: overwrite in place
if the key exists, else append. -/
def objInsert (ds : Dataset) (k : String) (tag : DTag) : Dataset :=
  if ds.any (fun p => p.1 == k) then
    ds.map (fun p => if p.1 == k then (k, tag) else p)
  else ds ++ [(k, tag)]

/-- `getTagsGroup` (source lines 703-714): tags of one hex group,
re-keyed by the lower-camel-case keyword. -/
def getTagsGroup (dataset : Dataset) (group : String) : Dataset :=
  (dataset.filter (fun p => p.2.hexGroup == group)).foldl
    (fun acc p => objInsert acc (lowerFirst p.2.keyword) p.2) []

/-- Property read on the object built by `getTagsGroup` (destructuring in
`getPixelData`). -/
def objLookup (ds : Dataset) (k : String) : Option DTag :=
  (ds.find? (fun p => p.1 == k)).map (fun p => p.2)

/-! ## Top-level reader (source lines 845-897) -/

/-- JavaScript spread `{ ...a, ...b }`: keys of `a` in order (values
overridden by `b` on collision), then the new keys of `b`. -/
def spreadMerge (a b : Dataset) : Dataset :=
  a.map (fun p =>
    match b.find? (fun q => q.1 == p.1) with
    | some q => (p.1, q.2)
    | none => p) ++
  b.filter (fun q => ¬ a.any (fun p => p.1 == q.1))

/-- `FullDataset` (source lines 137-140, 888-894): the merged dataset
plus the two mode booleans (kept apart from the map instead of being
stuffed into it, as section 9 of the spec suggests). -/
structure FullDataset where
  dataset : Dataset
  isLittleEndian : Bool
  isImplicitVR : Bool
deriving DecidableEq

/-- `readFile` (source lines 845-897), minus the File/extension plumbing
(the byte buffer is the input).  Note the transfer-syntax lookup uses the
8-hex-digit key `00020010` while `readDataset` keys elements by safe
keyword (`keyword-N`). -/
def readFile (bytes : List Nat) : Except Unit FullDataset := do
  let pre := readPreamble bytes
  let meta ← readFileMetaInfo bytes pre.newCursorPosition
  let fileMetaInfo := meta.1
  let cmd ← readCommandSetElements bytes meta.2
  let commandSetElements := cmd.1
  let datasetStart := cmd.2
  let transferSyntax := objLookup fileMetaInfo "00020010"
  let mode := readOrGuessIsImplicitVrAndIsLittleEndian bytes datasetStart transferSyntax
  let main ← readDataset bytes datasetStart mode.1 mode.2 none
  pure ⟨spreadMerge (spreadMerge main.1 fileMetaInfo) commandSetElements,
    mode.2, mode.1⟩

/-! ## Pixel pipeline (source lines 716-843) -/

/-- `littleEndianToBigEndian` (source lines 716-721): reverse the 2-char
chunks of a hex string longer than 2 characters. -/
def littleEndianToBigEndian (hex : String) : String :=
  if hex.length > 2 then
    String.mk ((chunkList 2 hex.toList).reverse.flatten)
  else hex

/-- `pixelDataToSignedInt` (source lines 723-741).  `num.toString(2)`
yields the unpadded binary form; the two's-complement branch fires only
when that form is exactly 16 characters starting with `1`. -/
def pixelDataToSignedInt (data : List String) : List Int :=
  data.map (fun num =>
    let bits := jsToStringBase 2 (parseHexJS num)
    if bits.head? = some '1' ∧ bits.length = 16 then
      let numberAfterXor :=
        parseBin (bits.map (fun b => if b = '0' then '1' else '0'))
      let value : Int := -((numberAfterXor : Int) + 1)
      if value = 0 then -32768 else value
    else (parseBin bits : Int))

/-- `numberToHex` (source lines 743-745): `('0' + i.toString(16)).slice(-2)`. -/
def numberToHex (i : Nat) : String :=
  takeRightStr ("0" ++ String.mk (jsToStringBase 16 i)) 2

/-- JavaScript truthiness of a converted tag value
(`windowCenter.value` in a boolean position). -/
def dvalueTruthy (v : DValue) : Bool :=
  match v with
  | .num q => q ≠ 0
  | .str s => s ≠ ""
  | .bytes _ => true
  | .nullv => false

/-- Numeric coercion of a tag value where the source does arithmetic on
it.  The claims exercise only number-valued tags here; other variants
(which would give NaN arithmetic in JavaScript) coerce to 0. -/
def dvalueNum (v : DValue) : ℚ :=
  match v with
  | .num q => q
  | _ => 0

/-- lodash `min([a, b])`. -/
def jsMin (a b : ℚ) : ℚ :=
  if a ≤ b then a else b

/-- lodash `max([a, b])`. -/
def jsMax (a b : ℚ) : ℚ :=
  if a ≤ b then b else a

/-- JavaScript `Math.abs`. -/
def jsAbs (q : ℚ) : ℚ :=
  if q < 0 then -q else q

/-- `adjustToWindow` (source lines 747-768).  A present tag whose value
is falsy (in particular the number 0) falls back to the defaults 610 and
1221.  `lodash min/max` realise the clamp, `Math.floor` is `Rat.floor`.
The divisor `|lo| + |hi|` is zero only if center and width are both zero,
which the defaulting rules out, so rational division is exact here. -/
def adjustToWindow (pixelData : List ℚ) (windowCenter windowWidth : Option DTag) :
    List Int :=
  let safeWindowCenter : ℚ :=
    match windowCenter with
    | some t => if dvalueTruthy t.value then dvalueNum t.value else 610
    | none => 610
  let safeWindowWidth : ℚ :=
    match windowWidth with
    | some t => if dvalueTruthy t.value then dvalueNum t.value else 1221
    | none => 1221
  let minPixelValue := safeWindowCenter - safeWindowWidth / 2
  let maxPixelValue := safeWindowCenter + safeWindowWidth / 2
  let scalingFactor : ℚ := 255 / (jsAbs minPixelValue + jsAbs maxPixelValue)
  pixelData.map (fun value =>
    let valueInRange := jsMin (jsMax value minPixelValue) maxPixelValue
    let positiveValue :=
      if minPixelValue < 0 then valueInRange + jsAbs minPixelValue else valueInRange
    Rat.floor (positiveValue * scalingFactor))

/-- JavaScript `x.toString(16)` for an integer (negative prints as minus
and the hex digits of the magnitude). -/
def intToHexJS (x : Int) : String :=
  if x < 0 then "-" ++ String.mk (jsToStringBase 16 x.natAbs)
  else String.mk (jsToStringBase 16 x.toNat)

/-- The color-string rendering at the end of `getPixelData`
(source lines 838-841). -/
def toColorString (x : Int) : String :=
  let value := padStartStr (strToUpper (intToHexJS x)) 2 '0'
  "#" ++ value ++ value ++ value

/-- `getPixelData` (source lines 770-843).  The group-0x0028 tags are
looked up by lower-camel-case keyword; `bitsAllocated`, `highBit`,
`bitsStored` and `pixelRepresentation` are dereferenced unconditionally
(a missing one throws — `Except.error`), while `rescaleSlope`,
`rescaleIntercept`, `windowCenter`, `windowWidth` and
`photometricInterpretation` are guarded.  Returns `none` (JavaScript
`undefined`) when there is no PixelData element. -/
def getPixelData (dataset : Dataset) : Except Unit (Option (List String)) :=
  let g := getTagsGroup dataset "0028"
  let bitsAllocated := objLookup g "bitsAllocated"
  let bitsStored := objLookup g "bitsStored"
  let highBit := objLookup g "highBit"
  let photometricInterpretation := objLookup g "photometricInterpretation"
  let pixelRepresentation := objLookup g "pixelRepresentation"
  let rescaleIntercept := objLookup g "rescaleIntercept"
  let rescaleSlope := objLookup g "rescaleSlope"
  let windowCenter := objLookup g "windowCenter"
  let windowWidth := objLookup g "windowWidth"
  let pixelData := getTagValue dataset (.str "Pixel Data")
  match pixelData with
  | none => .ok none
  | some pd =>
    match bitsAllocated with
    | none => .error ()
    | some ba =>
      let hexAllocated := (Rat.ceil (dvalueNum ba.value / 8) * 2).toNat
      let pixelDataHexString :=
        (chunkList hexAllocated
          (pd.rawValue.flatMap (fun i => (numberToHex i).toList))).map String.mk
      match highBit, bitsStored with
      | some hb, some bs =>
        let pixelDataBigEndian :=
          if dvalueNum hb.value + 1 = dvalueNum bs.value then
            pixelDataHexString.map littleEndianToBigEndian
          else pixelDataHexString
        let rescaleSlopeValue : ℚ :=
          match rescaleSlope with
          | some t => dvalueNum t.value
          | none => 1
        let rescaleInterceptValue : ℚ :=
          match rescaleIntercept with
          | some t => dvalueNum t.value
          | none => 0
        match pixelRepresentation with
        | none => .error ()
        | some pr =>
          let pixelDataSignedScaled :=
            (if dvalueNum pr.value = 0 then
              pixelDataBigEndian.map (fun hex => (parseHexJS hex : ℚ))
            else
              (pixelDataToSignedInt pixelDataBigEndian).map (fun n => (n : ℚ))).map
              (fun num => rescaleSlopeValue * num + rescaleInterceptValue)
          let pixelDataWindowAdjusted :=
            adjustToWindow pixelDataSignedScaled windowCenter windowWidth
          let pixelDataInterpreted :=
            match photometricInterpretation with
            | some t =>
              if t.value = DValue.str "MONOCHROME1" then
                pixelDataWindowAdjusted.map (fun i => 255 - i)
              else pixelDataWindowAdjusted
            | none => pixelDataWindowAdjusted
          .ok (some (pixelDataInterpreted.map toColorString))
      | _, _ => .error ()

/-! ## Decidability of `Except` equality (for evaluating closed statements) -/

instance {ε α : Type} [DecidableEq ε] [DecidableEq α] : DecidableEq (Except ε α)
  | .error x, .error y =>
    if h : x = y then .isTrue (by rw [h]) else .isFalse (by simp [h])
  | .error _, .ok _ => .isFalse (by simp)
  | .ok _, .error _ => .isFalse (by simp)
  | .ok x, .ok y =>
    if h : x = y then .isTrue (by rw [h]) else .isFalse (by simp [h])

/-! ## Concrete inputs used to evaluate the claims -/

/-- Bytes of the Explicit-VR-Big-Endian transfer syntax UID, padded to
even length with a NUL. -/
def uidBytesBE : List Nat :=
  "1.2.840.10008.1.2.2".toList.map Char.toNat ++ [0]

/-- A minimal well-formed file: 128-byte preamble, `DICM`, a File Meta
block whose only element is `(0002,0010) UI` with value
`1.2.840.10008.1.2.2` (Explicit VR Big Endian), then a main dataset
consisting of one explicit-VR little-endian element
`(0010,0010) PN "DOE^JOHN"`. -/
def fileBE : List Nat :=
  List.replicate 128 0 ++ [0x44, 0x49, 0x43, 0x4D] ++
  ([0x02, 0x00, 0x10, 0x00, 0x55, 0x49, 20, 0] ++ uidBytesBE) ++
  ([0x10, 0x00, 0x10, 0x00, 0x50, 0x4E, 8, 0] ++
    "DOE^JOHN".toList.map Char.toNat)

/-- An explicit-VR little-endian stream: first an `(0008,0018) OB`
element with extended length `0xFFFFFFFF` (undefined length), then a
well-formed `(0010,0010) PN` element of length 4 with value `ABCD`. -/
def bytesUndefLen : List Nat :=
  [0x08, 0x00, 0x18, 0x00, 0x4F, 0x42, 0x00, 0x00, 0xFF, 0xFF, 0xFF, 0xFF,
   0x10, 0x00, 0x10, 0x00, 0x50, 0x4E, 0x04, 0x00, 0x41, 0x42, 0x43, 0x44]

/-- An implicit-VR little-endian stream holding a single `(0000,0000)`
element of length 4 (a command-set group-length tag). -/
def bytesGroup0 : List Nat := [0, 0, 0, 0, 4, 0, 0, 0, 1, 2, 3, 4]

/-- An explicit-VR little-endian `(0010,0010) PN` element whose header
announces 8 value bytes while only 4 remain in the buffer. -/
def bytesTruncated : List Nat :=
  [0x10, 0x00, 0x10, 0x00, 0x50, 0x4E, 0x08, 0x00, 65, 66, 67, 68]

/-- The element `readDataset` builds from `bytesTruncated`: the header
length 8 is recorded while only the 4 remaining bytes `ABCD` form the
raw value. -/
def truncTag : DTag :=
  ⟨"PN", 8, [65, 66, 67, 68], DValue.str "ABCD", "00100010", 16, 16, "0010",
   "0010", "Patient Name", "Patient Name", "1", "PatientName", ""⟩

/-- A group-0x0028 attribute tag as `readDataset` would build it
(only the fields the pixel pipeline reads matter). -/
def mkAttrTag (hexElement keyword name : String) (v : DValue) : DTag :=
  ⟨"US", 2, [], v, "0028" ++ hexElement, 0x28, 0, "0028", hexElement,
   name, name, "1", keyword, ""⟩

/-- A PixelData tag `(7FE0,0010)` with the given raw bytes. -/
def mkPixelTag (raw : List Nat) : DTag :=
  ⟨"OW", raw.length, raw, DValue.bytes raw, "7fe00010", 0x7fe0, 0x10,
   "7fe0", "0010", "Pixel Data", "Pixel Data", "1", "PixelData", ""⟩

/-- A dataset holding a PixelData element but no group-0x0028 attributes
at all (in particular no BitsAllocated and no PixelRepresentation). -/
def dsNoBitsAllocated : Dataset :=
  [("PixelData-1", mkPixelTag [0])]

/-- A dataset holding PixelData plus `bitsAllocated`, `bitsStored` and
`highBit`, but no PixelRepresentation element. -/
def dsNoPixelRepresentation : Dataset :=
  [("BitsAllocated-1", mkAttrTag "0100" "BitsAllocated" "Bits Allocated" (DValue.num 8)),
   ("BitsStored-1", mkAttrTag "0101" "BitsStored" "Bits Stored" (DValue.num 8)),
   ("HighBit-1", mkAttrTag "0102" "HighBit" "High Bit" (DValue.num 7)),
   ("PixelData-1", mkPixelTag [0])]

/-- The claim-C5 dataset: 8-bit unsigned MONOCHROME2 pixels `0, 128, 255`
with `windowCenter = 128`, `windowWidth = 256`, `rescaleSlope = 1`,
`rescaleIntercept = 0`. -/
def dsWindow128 : Dataset :=
  [("BitsAllocated-1", mkAttrTag "0100" "BitsAllocated" "Bits Allocated" (DValue.num 8)),
   ("BitsStored-1", mkAttrTag "0101" "BitsStored" "Bits Stored" (DValue.num 8)),
   ("HighBit-1", mkAttrTag "0102" "HighBit" "High Bit" (DValue.num 7)),
   ("PixelRepresentation-1", mkAttrTag "0103" "PixelRepresentation" "Pixel Representation" (DValue.num 0)),
   ("PhotometricInterpretation-1", mkAttrTag "0004" "PhotometricInterpretation" "Photometric Interpretation" (DValue.str "MONOCHROME2")),
   ("WindowCenter-1", mkAttrTag "1050" "WindowCenter" "Window Center" (DValue.num 128)),
   ("WindowWidth-1", mkAttrTag "1051" "WindowWidth" "Window Width" (DValue.num 256)),
   ("RescaleSlope-1", mkAttrTag "1053" "RescaleSlope" "Rescale Slope" (DValue.num 1)),
   ("RescaleIntercept-1", mkAttrTag "1052" "RescaleIntercept" "Rescale Intercept" (DValue.num 0)),
   ("PixelData-1", mkPixelTag [0, 128, 255])]

/-- A WindowCenter tag holding the stored numeric value 0. -/
def zeroCenterTag : DTag :=
  mkAttrTag "1050" "WindowCenter" "Window Center" (DValue.num 0)

/-- A WindowWidth tag holding the stored numeric value 0. -/
def zeroWidthTag : DTag :=
  mkAttrTag "1051" "WindowWidth" "Window Width" (DValue.num 0)

/-- Well-founded twin of `natToBaseAux`/`jsToStringBase`, used only in
proofs (the fuel-driven version is the one that evaluates): the base-`b`
digit string of `n`, most significant first, no leading zeros. -/
def baseRep (b : Nat) (n : Nat) : List Char :=
  if _h : n < b ∨ b ≤ 1 then [digitCharJS n]
  else baseRep b (n / b) ++ [digitCharJS (n % b)]
termination_by n
decreasing_by
  exact Nat.div_lt_self (by omega) (by omega)

/-! ## Claim C1 -/

/-- C1 (code bug, evaluated at the failing input): for the well-formed
file `fileBE` whose File Meta block holds `(0002,0010)` with UID value
`1.2.840.10008.1.2.2` (Explicit VR Big Endian), the parsed meta element
is present — keyed `TransferSyntaxUID-1`, with representation `00020010`
and exactly that UID value — yet `readFile` looks the transfer syntax up
under the key `00020010`, finds nothing, and falls back to the heuristic
probe, reading the main dataset with `isLittleEndian = true` instead of
the `(isImplicitVR, isLittleEndian) = (false, false)` the mode table
prescribes for this UID. -/
theorem readFile_ignores_transfer_syntax_uid :
    (readFile fileBE).toOption.map (fun fd =>
      (fd.isImplicitVR, fd.isLittleEndian,
       (objLookup fd.dataset "TransferSyntaxUID-1").map
         (fun t => (t.representation, t.value)),
       objLookup fd.dataset "00020010")) =
    some (false, true,
      some ("00020010", DValue.str "1.2.840.10008.1.2.2"), none) := by
  decide

/-! ## Claim C2 -/

/-- C2 (counterexample): in `bytesUndefLen` the first element has
undefined length (`0xFFFFFFFF`); the claim says the dataset read
terminates immediately there and no further element appears, but the
parsed dataset does contain the `(0010,0010)` element that follows
(key `PatientName-1`), and the read consumed the whole 24-byte input. -/
theorem readDataset_continues_after_undefined_length :
    (readDataset bytesUndefLen 0 false true none).toOption.map
      (fun p => (hasKey p.1 "PatientName-1", p.2)) = some (true, 24) := by
  decide

/-! ## Claim C3 -/

/-- C3 (counterexample): `getPixelData` on a dataset that contains a
PixelData element but no BitsAllocated element dereferences the missing
tag (`bitsAllocated.value`) and the exception escapes — the call does not
complete with a value or nil result. -/
theorem getPixelData_throws_without_bitsAllocated :
    getPixelData dsNoBitsAllocated = Except.error () := by
  decide

/-- C3 (amended): exceptions do escape the public operations at the two
inputs the claim names — `readDataset` on an implicit-VR group-length tag
`(0x0000,0x0000)` with positive length throws from `getTagInfo`, and
`getPixelData` throws when PixelRepresentation (here) or BitsAllocated
(see the counterexample) is absent while PixelData is present. -/
theorem public_api_exceptions_escape :
    readDataset bytesGroup0 0 true true none = Except.error () ∧
    getPixelData dsNoPixelRepresentation = Except.error () := by
  constructor
  · decide
  · decide

/-! ## Claim C4 -/

/-- C4 (counterexample): in `bytesTruncated` the `(0010,0010)` header
announces `length = 8` but only 4 payload bytes remain; the element is
still inserted, with a 4-byte `rawValue` — its length does not equal the
`length` field. -/
theorem truncated_element_rawValue_shorter :
    (readDataset bytesTruncated 0 false true none).toOption.map (fun p =>
      (objLookup p.1 "PatientName-1").map
        (fun t => (t.rawValue.length, t.length))) = some (some (4, 8)) ∧
    (4 : Nat) ≠ 8 := by
  constructor
  · decide
  · decide

/-! ## Claim C5 -/

attribute [local semireducible] Rat.add Rat.sub Rat.mul Rat.inv in
/-- C5 (counterexample): under the claimed window rule
(`lo = 0`, `hi = 256`, `scale = 255/256`, clamp, floor) pixel 128 maps to
`⌊127.5⌋ = 127 = 0x7F`, so the pipeline output on pixels `0, 128, 255` is
NOT the claimed `["#000000", "#808080", "#FFFFFF"]`. -/
theorem pipeline_window128_not_claimed_values :
    getPixelData dsWindow128 ≠
      Except.ok (some ["#000000", "#808080", "#FFFFFF"]) := by
  decide

attribute [local semireducible] Rat.add Rat.sub Rat.mul Rat.inv in
/-- C5 (amended): for `pixelRepresentation = 0`, `rescaleSlope = 1`,
`rescaleIntercept = 0`, `windowCenter = 128`, `windowWidth = 256` and
MONOCHROME2, the pipeline maps pixel 0 to `#000000`, pixel 128 to
`#7F7F7F` (`⌊128·255/256⌋ = 127`), and pixel 255 to `#FEFEFE`
(`⌊255·255/256⌋ = 254`), under the stated rule `lo = center - width/2`,
`hi = center + width/2`, `scale = 255/(|lo|+|hi|)`, clamp, shift if
`lo < 0`, scale, floor. -/
theorem pipeline_window128_values :
    getPixelData dsWindow128 =
      Except.ok (some ["#000000", "#7F7F7F", "#FEFEFE"]) := by
  decide

/-! ## Claim C6 -/

/-- C6 (counterexample): for `bytesPerPixel = 1` the chunk `80` (leading
bit set) decodes to the unsigned value 128, not to the two's-complement
value −128 the claim prescribes: the sign branch requires a 16-character
binary form. -/
theorem chunk80_decodes_unsigned :
    pixelDataToSignedInt ["80"] = [128] ∧ (128 : Int) ≠ -128 := by
  constructor
  · decide
  · decide

/-! ## Claim C7 -/

/-- C7 (counterexample): the VR byte pair `ZZ` — both bytes 0x5A, inside
the claimed inclusive range 0x41–0x5A — is NOT parsed as explicit VR: the
lodash `inRange(…, 65, 90)` test excludes 0x5A, so `unpack` falls back to
the implicit decoding and returns a `null` VR (with the 32-bit implicit
length and header size 8) instead of `some "ZZ"`. -/
theorem vr_ZZ_falls_back_to_implicit :
    unpack [] [0x10, 0, 0x10, 0, 0x5A, 0x5A, 4, 0] false true 0 =
      ⟨0x10, 0x10, none, 4 * 65536 + 90 * 256 + 90, 8⟩ ∧
    (none : Option String) ≠ some "ZZ" := by
  constructor
  · decide
  · decide

/-! ## Claim C10 -/

/-- C10: a WindowCenter element whose stored numeric value is 0 is falsy
in the guard `windowCenter && windowCenter.value`, so `adjustToWindow`
(and hence `getPixelData`, which passes the looked-up tags straight
through) uses the default `windowCenter = 610`, exactly as if the element
were absent; likewise a zero WindowWidth falls back to the default 1221. -/
theorem zero_window_settings_use_defaults :
    (∀ (pd : List ℚ) (wcTag : DTag) (ww : Option DTag),
      wcTag.value = DValue.num 0 →
      adjustToWindow pd (some wcTag) ww = adjustToWindow pd none ww) ∧
    (∀ (pd : List ℚ) (wc : Option DTag) (wwTag : DTag),
      wwTag.value = DValue.num 0 →
      adjustToWindow pd wc (some wwTag) = adjustToWindow pd wc none) := by
  constructor
  · intro pd wcTag ww h
    simp [adjustToWindow, h, dvalueTruthy]
  · intro pd wc wwTag h
    simp [adjustToWindow, h, dvalueTruthy]

/-- C10 (witness): the zero-valued WindowCenter and WindowWidth tags
behave as absent on the concrete pixel list `[1]`. -/
theorem zero_window_settings_use_defaults_witness :
    zeroCenterTag.value = DValue.num 0 ∧
    adjustToWindow [1] (some zeroCenterTag) (some zeroWidthTag) =
      adjustToWindow [1] none (some zeroWidthTag) ∧
    adjustToWindow [1] none (some zeroWidthTag) = adjustToWindow [1] none none :=
  ⟨by decide,
   zero_window_settings_use_defaults.1 [1] zeroCenterTag (some zeroWidthTag)
     (by decide),
   zero_window_settings_use_defaults.2 [1] none zeroWidthTag (by decide)⟩

/-- C7 (amended): in explicit-VR mode, `unpack` keeps the VR as read
exactly when both VR bytes lie in 0x41–0x59 inclusive — the lodash
`inRange(…, 65, 90)` test excludes 0x5A (`Z`) — and otherwise falls back
to the implicit decoding: re-reads the same 8 header bytes as
`{endian}HHL` (32-bit length from bytes 4–7), returns VR `null` and
header size 8. -/
theorem unpack_explicit_fallback (data : List Nat) (cursor : Nat) (le : Bool)
    (g0 g1 e0 e1 b0 b1 l0 l1 : Nat) :
    ((unpack data [g0, g1, e0, e1, b0, b1, l0, l1] false le cursor).VR =
      if (65 ≤ b0 ∧ b0 < 90) ∧ (65 ≤ b1 ∧ b1 < 90) then
        some (String.mk [Char.ofNat b0, Char.ofNat b1])
      else none) ∧
    (¬ ((65 ≤ b0 ∧ b0 < 90) ∧ (65 ≤ b1 ∧ b1 < 90)) →
      unpack data [g0, g1, e0, e1, b0, b1, l0, l1] false le cursor =
        ⟨u16 le g0 g1, u16 le e0 e1, none, u32 le b0 b1 l0 l1, 8⟩) := by
  constructor
  · by_cases h : (65 ≤ b0 ∧ b0 < 90) ∧ (65 ≤ b1 ∧ b1 < 90)
    · simp only [unpack, isUppercaseLetter, lodashInRange, List.getD, if_pos h]
      simp [h]
      split <;> rfl
    · simp [unpack, isUppercaseLetter, lodashInRange, h]
  · intro h
    simp [unpack, isUppercaseLetter, lodashInRange, h]

/-- C7 (witness): the fallback conclusion applied at the concrete VR byte
pair `ZZ` (both bytes 0x5A, outside 0x41–0x59). -/
theorem unpack_explicit_fallback_witness :
    unpack [] [0x10, 0, 0x10, 0, 0x5A, 0x5A, 4, 0] false true 0 =
      ⟨0x10, 0x10, none, u32 true 0x5A 0x5A 4 0, 8⟩ :=
  (unpack_explicit_fallback [] 0 true 0x10 0 0x10 0 0x5A 0x5A 4 0).2
    (by decide)

/-! ## Claim C8 -/

/-- C8: `readPreamble` returns the first 128 bytes as the preamble with
`newCursorPosition = 132` exactly when bytes 128..132 of the input are
the ASCII magic `DICM`; on any mismatch it returns an empty preamble with
`newCursorPosition = 0` (and `readFile` feeds that cursor straight into
`readFileMetaInfo`, so the File Meta read then starts at offset 0). -/
theorem readPreamble_magic_iff (bytes : List Nat) :
    (readPreamble bytes = ⟨bytes.take 128, 132⟩ ↔
      Uint8Helpers.arrayToText (Uint8Helpers.getArrayRange bytes 128 4) =
        dicomMagic) ∧
    (Uint8Helpers.arrayToText (Uint8Helpers.getArrayRange bytes 128 4) ≠
        dicomMagic →
      readPreamble bytes = ⟨[], 0⟩) := by
  have hmagic :
      (Uint8Helpers.splitArray ((Uint8Helpers.splitArray bytes 132).1) 128).2 =
        Uint8Helpers.getArrayRange bytes 128 4 := by
    simp [Uint8Helpers.splitArray, Uint8Helpers.getArrayRange, List.take_drop]
  have hpre :
      (Uint8Helpers.splitArray ((Uint8Helpers.splitArray bytes 132).1) 128).1 =
        bytes.take 128 := by
    simp [Uint8Helpers.splitArray, List.take_take]
  by_cases hm :
      Uint8Helpers.arrayToText (Uint8Helpers.getArrayRange bytes 128 4) =
        dicomMagic
  · refine ⟨⟨fun _ => hm, fun _ => ?_⟩, fun hne => absurd hm hne⟩
    rw [readPreamble, hmagic, hpre, if_neg (by simp [hm])]
  · have hres : readPreamble bytes = ⟨[], 0⟩ := by
      rw [readPreamble, hmagic, hpre, if_pos (by simp [hm])]
    refine ⟨⟨fun he => ?_, fun hmm => absurd hmm hm⟩, fun _ => hres⟩
    rw [hres] at he
    exact absurd (congrArg PreambleResult.newCursorPosition he) (by simp)

/-- C8 (witness): both branches at concrete inputs — a 135-byte input
with `DICM` at offset 128 parses to cursor 132 with the first 128 bytes
as preamble, and the 3-byte input `[1, 2, 3]` (no magic) yields the empty
preamble at cursor 0. -/
theorem readPreamble_magic_iff_witness :
    readPreamble (List.replicate 128 7 ++ [0x44, 0x49, 0x43, 0x4D, 9]) =
      ⟨(List.replicate 128 7 ++ [0x44, 0x49, 0x43, 0x4D, 9]).take 128, 132⟩ ∧
    readPreamble [1, 2, 3] = ⟨[], 0⟩ :=
  ⟨(readPreamble_magic_iff
      (List.replicate 128 7 ++ [0x44, 0x49, 0x43, 0x4D, 9])).1.mpr (by decide),
   (readPreamble_magic_iff [1, 2, 3]).2 (by decide)⟩

/-- C2 (amended): when the parsed header has full 8 bytes, no stop
predicate fires, and the length field is `0xFFFFFFFF` (undefined length),
the `readDataset` loop does NOT terminate: it logs, skips only the header
(`cursorChange` bytes), keeps the dataset accumulated so far unchanged,
and continues parsing at the next offset.  (A zero length with a special
VR likewise just continues — see the `u.length > 0` guard in
`readDatasetLoop`.) -/
theorem readDatasetLoop_undefined_length_continues
    (data : List Nat) (iv le : Bool) (sw : Option StopWhen)
    (fuel d : Nat) (ds : Dataset)
    (h8 : (Uint8Helpers.getArrayRange data d 8).length = 8)
    (hstop : stopTest sw
      (unpack data (Uint8Helpers.getArrayRange data d 8) iv le d).group
      (unpack data (Uint8Helpers.getArrayRange data d 8) iv le d).VR
      (unpack data (Uint8Helpers.getArrayRange data d 8) iv le d).length = false)
    (hlen : (unpack data (Uint8Helpers.getArrayRange data d 8) iv le d).length =
      4294967295) :
    readDatasetLoop data iv le sw (fuel + 1) d ds =
      readDatasetLoop data iv le sw fuel
        (d + (unpack data (Uint8Helpers.getArrayRange data d 8) iv le d).cursorChange)
        ds := by
  rw [hlen] at hstop
  simp only [readDatasetLoop, h8, hstop, hlen]
  simp

/-- C2 (witness): the continuation step applied to the concrete stream
`bytesUndefLen` at offset 0 (the undefined-length `OB` element): one loop
step lands at offset 12 with the dataset still empty, rather than
terminating. -/
theorem readDatasetLoop_undefined_length_continues_witness :
    readDatasetLoop bytesUndefLen false true none 25 0 [] =
      readDatasetLoop bytesUndefLen false true none 24 12 [] := by
  have h := readDatasetLoop_undefined_length_continues bytesUndefLen false true
    none 24 0 [] (by decide) (by decide) (by decide)
  have hc : (unpack bytesUndefLen
      (Uint8Helpers.getArrayRange bytesUndefLen 0 8) false true 0).cursorChange =
      12 := by decide
  rw [h, hc]

/-- Helper: whenever `createTag` succeeds, the built tag carries the
`length` and `rawValue` of the values record unchanged. -/
theorem createTag_ok_fields (group element : Nat) (v : ITagValues) (t : DTag)
    (h : createTag group element v = .ok t) :
    t.length = v.length ∧ t.rawValue = v.rawValue := by
  simp only [createTag] at h
  split at h
  · simp only [Except.ok.injEq] at h
    subst h
    exact ⟨rfl, rfl⟩
  · split at h
    · simp only [Except.ok.injEq] at h
      subst h
      exact ⟨rfl, rfl⟩
    · split at h
      · exact absurd h (by simp)
      · simp only [Except.ok.injEq] at h
        subst h
        exact ⟨rfl, rfl⟩

/-- Helper: a slice of `range` bytes is never longer than `range`. -/
theorem getArrayRange_length_le (a : List Nat) (s r : Nat) :
    (Uint8Helpers.getArrayRange a s r).length ≤ r := by
  simp [Uint8Helpers.getArrayRange]

/-- Helper: the `readDataset` loop preserves the invariant that every
stored element's `rawValue` is no longer than its `length` field. -/
theorem readDatasetLoop_rawValue_le (data : List Nat) (iv le : Bool)
    (sw : Option StopWhen) :
    ∀ (fuel d : Nat) (ds : Dataset),
      (∀ kv ∈ ds, kv.2.rawValue.length ≤ kv.2.length) →
      ∀ ds' pos, readDatasetLoop data iv le sw fuel d ds = .ok (ds', pos) →
      ∀ kv ∈ ds', kv.2.rawValue.length ≤ kv.2.length := by
  intro fuel
  induction fuel with
  | zero =>
    intro d ds hds ds' pos h
    simp only [readDatasetLoop, Except.ok.injEq, Prod.mk.injEq] at h
    obtain ⟨rfl, rfl⟩ := h
    exact hds
  | succ n ih =>
    intro d ds hds ds' pos h
    simp only [readDatasetLoop] at h
    split at h
    · simp only [Except.ok.injEq, Prod.mk.injEq] at h
      obtain ⟨rfl, rfl⟩ := h
      exact hds
    · split at h
      · simp only [Except.ok.injEq, Prod.mk.injEq] at h
        obtain ⟨rfl, rfl⟩ := h
        exact hds
      · split at h
        · split at h
          · split at h
            · split at h
              · exact absurd h (by simp)
              · rename_i tagInfo htag
                split at h
                · exact absurd h (by simp)
                · rename_i tag hcreate
                  refine ih _ _ ?_ _ _ h
                  intro kv hkv
                  simp only [insertTag, List.mem_append, List.mem_singleton] at hkv
                  rcases hkv with hkv | rfl
                  · exact hds kv hkv
                  · have hf := createTag_ok_fields _ _ _ _ hcreate
                    rw [hf.1, hf.2]
                    exact getArrayRange_length_le data _ _
            · exact ih _ _ hds _ _ h
          · exact ih _ _ hds _ _ h
        · exact ih _ _ hds _ _ h

/-- C4 (amended): for every dataset returned by `readDataset` and every
element in it, the byte length of the element's `rawValue` is at most its
`length` field — with equality whenever the payload lies inside the
buffer, but a buffer that ends mid-payload yields a strictly shorter
`rawValue` (see the counterexample), because `slice` clamps. -/
theorem readDataset_rawValue_length_le (bytes : List Nat) (cursor : Nat)
    (isImplicitVRAssumed isLittleEndian : Bool) (stopWhen : Option StopWhen)
    (ds : Dataset) (pos : Nat)
    (h : readDataset bytes cursor isImplicitVRAssumed isLittleEndian stopWhen =
      .ok (ds, pos)) :
    ∀ kv ∈ ds, kv.2.rawValue.length ≤ kv.2.length := by
  simp only [readDataset] at h
  split at h
  · exact absurd h (by simp)
  · rename_i p heq
    simp only [Except.ok.injEq, Prod.mk.injEq] at h
    obtain ⟨rfl, rfl⟩ := h
    exact readDatasetLoop_rawValue_le _ _ _ _ _ _ _ (by simp) _ _ heq

/-- C4 (witness): the invariant applied to the truncated stream
`bytesTruncated`: the stored element has `rawValue` of 4 bytes against a
`length` field of 8, and 4 ≤ 8. -/
theorem readDataset_rawValue_length_le_witness :
    truncTag.rawValue.length ≤ truncTag.length :=
  readDataset_rawValue_length_le bytesTruncated 0 false true none
    [("PatientName-1", truncTag)] 16 (by decide) ("PatientName-1", truncTag)
    (by decide)

/-! ## Digit-string lemmas for the pixel sign decoding (claim C6) -/

/-- The fuel-driven base conversion agrees with its well-founded twin
once the fuel covers the number of digits. -/
theorem natToBaseAux_eq_baseRep (b : Nat) (hb : 2 ≤ b) :
    ∀ (fuel n : Nat) (acc : List Char), 1 ≤ fuel → n < b ^ fuel →
      natToBaseAux b fuel n acc = baseRep b n ++ acc := by
  intro fuel
  induction fuel with
  | zero => intro n acc h1 _; omega
  | succ f ih =>
    intro n acc _ hlt
    by_cases hn : n < b
    · simp only [natToBaseAux, if_pos hn]
      rw [baseRep, dif_pos (Or.inl hn)]
      rfl
    · have hf : 1 ≤ f := by
        rcases Nat.eq_zero_or_pos f with hf0 | hf0
        · subst hf0
          rw [pow_one] at hlt
          omega
        · exact hf0
      have hdiv : n / b < b ^ f := by
        rw [Nat.div_lt_iff_lt_mul (by omega)]
        calc n < b ^ (f + 1) := hlt
        _ = b ^ f * b := by ring
      simp only [natToBaseAux, if_neg hn]
      rw [ih (n / b) _ hf hdiv]
      conv_rhs => rw [baseRep, dif_neg (by omega)]
      simp

/-- `jsToStringBase` (the embedding of `n.toString(b)`) equals the
well-founded digit string. -/
theorem jsToStringBase_eq_baseRep (b n : Nat) (hb : 2 ≤ b) :
    jsToStringBase b n = baseRep b n := by
  have hpow : n < b ^ (n + 1) := by
    calc n < 2 ^ n := Nat.lt_two_pow n
    _ ≤ b ^ n := Nat.pow_le_pow_left hb n
    _ ≤ b ^ (n + 1) := Nat.pow_le_pow_right (by omega) (by omega)
  rw [jsToStringBase, natToBaseAux_eq_baseRep b hb (n + 1) n [] (by omega) hpow]
  simp

/-- A base-`b` digit string has `k + 1` digits exactly on
`[b ^ k, b ^ (k + 1))`. -/
theorem baseRep_length_eq (b : Nat) (hb : 2 ≤ b) :
    ∀ (k n : Nat), b ^ k ≤ n → n < b ^ (k + 1) →
      (baseRep b n).length = k + 1 := by
  intro k
  induction k with
  | zero =>
    intro n _ h2
    rw [baseRep, dif_pos (Or.inl (by simpa using h2))]
    rfl
  | succ j ih =>
    intro n h1 h2
    have hbn : b ≤ n := le_trans (by calc b = b ^ 1 := (pow_one b).symm
      _ ≤ b ^ (j + 1) := Nat.pow_le_pow_right (by omega) (by omega)) h1
    have hd1 : b ^ j ≤ n / b := by
      rw [Nat.le_div_iff_mul_le (by omega)]
      calc b ^ j * b = b ^ (j + 1) := by ring
      _ ≤ n := h1
    have hd2 : n / b < b ^ (j + 1) := by
      rw [Nat.div_lt_iff_lt_mul (by omega)]
      calc n < b ^ (j + 1 + 1) := h2
      _ = b ^ (j + 1) * b := by ring
    rw [baseRep, dif_neg (by omega)]
    simp [ih (n / b) hd1 hd2]

/-- A binary digit string never starts with a zero digit: for `n ≥ 1` the
leading character is `1`. -/
theorem baseRep_two_head : ∀ n : Nat, 1 ≤ n → (baseRep 2 n).head? = some '1' := by
  intro n
  induction n using Nat.strong_induction_on with
  | _ n ih =>
    intro h
    by_cases hn : n < 2
    · have h1 : n = 1 := by omega
      subst h1
      rw [baseRep]
      rfl
    · rw [baseRep, dif_neg (by omega)]
      rw [List.head?_append]
      have hrec := ih (n / 2) (Nat.div_lt_self (by omega) (by omega))
        (by omega)
      rw [hrec]
      rfl

/-- Every character of a binary digit string is `0` or `1`. -/
theorem baseRep_two_digits (n : Nat) :
    ∀ c ∈ baseRep 2 n, c = '0' ∨ c = '1' := by
  induction n using Nat.strong_induction_on with
  | _ n ih =>
    by_cases hn : n < 2
    · rw [baseRep, dif_pos (Or.inl hn)]
      interval_cases n
      · intro c hc; simp at hc; subst hc; left; rfl
      · intro c hc; simp at hc; subst hc; right; rfl
    · rw [baseRep, dif_neg (by omega)]
      intro c hc
      rw [List.mem_append] at hc
      rcases hc with hc | hc
      · exact ih (n / 2) (Nat.div_lt_self (by omega) (by omega)) c hc
      · simp at hc
        subst hc
        have : n % 2 = 0 ∨ n % 2 = 1 := by omega
        rcases this with h | h <;> rw [h]
        · left; rfl
        · right; rfl

/-- Folding the binary-value accumulator from `acc` scales `acc` by
`2 ^ length`. -/
theorem parseBin_foldl_acc :
    ∀ (cs : List Char) (acc : Nat),
      cs.foldl (fun a c => a * 2 + (if c = '1' then 1 else 0)) acc =
        acc * 2 ^ cs.length + parseBin cs := by
  intro cs
  induction cs with
  | nil => intro acc; simp [parseBin]
  | cons c cs ih =>
    intro acc
    have hx : parseBin (c :: cs) =
        (if c = '1' then 1 else 0) * 2 ^ cs.length + parseBin cs := by
      rw [parseBin, List.foldl_cons, ih]
      simp
    rw [List.foldl_cons, ih, hx, List.length_cons]
    ring

/-- `parseBin` of a string extended by one digit. -/
theorem parseBin_snoc (cs : List Char) (c : Char) :
    parseBin (cs ++ [c]) = parseBin cs * 2 + (if c = '1' then 1 else 0) := by
  rw [parseBin, List.foldl_append]
  rfl

/-- `parseInt(bits, 2)` recovers the number whose binary string was
rendered: the round trip of `toString(2)`. -/
theorem parseBin_baseRep : ∀ n : Nat, parseBin (baseRep 2 n) = n := by
  intro n
  induction n using Nat.strong_induction_on with
  | _ n ih =>
    by_cases hn : n < 2
    · rw [baseRep, dif_pos (Or.inl hn)]
      interval_cases n
      · rfl
      · rfl
    · rw [baseRep, dif_neg (by omega), parseBin_snoc,
        ih (n / 2) (Nat.div_lt_self (by omega) (by omega))]
      have h2 : n % 2 = 0 ∨ n % 2 = 1 := by omega
      rcases h2 with h2 | h2 <;> rw [h2]
      · rw [show (if digitCharJS 0 = '1' then (1 : Nat) else 0) = 0 from by decide]
        omega
      · rw [show (if digitCharJS 1 = '1' then (1 : Nat) else 0) = 1 from by decide]
        omega

/-- A binary digit string of length `k` denotes a value below `2 ^ k`. -/
theorem parseBin_lt : ∀ cs : List Char, parseBin cs < 2 ^ cs.length := by
  intro cs
  induction cs with
  | nil => simp [parseBin]
  | cons c cs ih =>
    have hx : parseBin (c :: cs) =
        (if c = '1' then 1 else 0) * 2 ^ cs.length + parseBin cs := by
      rw [parseBin, List.foldl_cons, parseBin_foldl_acc]
      simp
    rw [hx, List.length_cons]
    have : (if c = '1' then 1 else 0) ≤ 1 := by split <;> omega
    have hp : (0 : Nat) < 2 ^ cs.length := Nat.pos_pow_of_pos _ (by omega)
    calc (if c = '1' then 1 else 0) * 2 ^ cs.length + parseBin cs
        ≤ 1 * 2 ^ cs.length + parseBin cs := by
          exact Nat.add_le_add_right (Nat.mul_le_mul_right _ this) _
    _ < 2 ^ cs.length + 2 ^ cs.length := by omega
    _ = 2 ^ (cs.length + 1) := by ring

/-- The bitwise NOT of the loop in `pixelDataToSignedInt`: flipping every
binary digit complements the value against `2 ^ length - 1`. -/
theorem parseBin_flip :
    ∀ cs : List Char, (∀ c ∈ cs, c = '0' ∨ c = '1') →
      parseBin (cs.map (fun b => if b = '0' then '1' else '0')) =
        2 ^ cs.length - 1 - parseBin cs := by
  intro cs
  induction cs with
  | nil => intro _; simp [parseBin]
  | cons c cs ih =>
    intro hd
    have hcs : ∀ x ∈ cs, x = '0' ∨ x = '1' := fun x hx => hd x (by simp [hx])
    have hc : c = '0' ∨ c = '1' := hd c (by simp)
    have hx : ∀ (a : Char) (l : List Char), parseBin (a :: l) =
        (if a = '1' then 1 else 0) * 2 ^ l.length + parseBin l := by
      intro a l
      rw [parseBin, List.foldl_cons, parseBin_foldl_acc]
      simp
    have hlt := parseBin_lt cs
    have hp : (0 : Nat) < 2 ^ cs.length := Nat.pos_pow_of_pos _ (by omega)
    rw [List.map_cons, hx, hx, ih hcs, List.length_map, List.length_cons]
    have h2 : (2 : Nat) ^ (cs.length + 1) = 2 ^ cs.length + 2 ^ cs.length := by
      ring
    rcases hc with hc | hc <;> subst hc <;> simp <;> omega

/-- The sign-branch guard of `pixelDataToSignedInt` — leading digit `1`
and exactly 16 binary digits — holds precisely for values in
`[0x8000, 0x10000)`. -/
theorem baseRep_two_sixteen_iff (n : Nat) :
    ((baseRep 2 n).head? = some '1' ∧ (baseRep 2 n).length = 16) ↔
      (32768 ≤ n ∧ n < 65536) := by
  constructor
  · rintro ⟨hh, hl⟩
    have hn1 : 1 ≤ n := by
      by_contra h0
      have hz : n = 0 := by omega
      subst hz
      rw [baseRep, dif_pos (Or.inl (by omega))] at hh
      exact absurd hh (by decide)
    have h1 : 2 ^ Nat.log 2 n ≤ n := Nat.pow_log_le_self 2 (by omega)
    have h2 : n < 2 ^ (Nat.log 2 n + 1) :=
      Nat.lt_pow_succ_log_self (by omega) n
    have hlen := baseRep_length_eq 2 (by omega) (Nat.log 2 n) n h1 h2
    rw [hlen] at hl
    have hk : Nat.log 2 n = 15 := by omega
    rw [hk] at h1 h2
    norm_num at h1 h2
    exact ⟨h1, h2⟩
  · rintro ⟨h1, h2⟩
    refine ⟨baseRep_two_head n (by omega), ?_⟩
    have := baseRep_length_eq 2 (by omega) 15 n (by norm_num; omega)
      (by norm_num; omega)
    omega

/-- C6 (amended): `pixelDataToSignedInt` applies the two's-complement
decoding only to chunks whose unpadded binary form is exactly 16 digits
with the leading bit set — parsed values in `[0x8000, 0xFFFF]`, which
decode to `value − 65536` — and parses every other chunk unsigned,
whatever `bytesPerPixel` is.  In particular `8000` decodes to −32768 but
the one-byte chunk `80` decodes to 128, not −128. -/
theorem pixelDataToSignedInt_sixteen_bit_only :
    (∀ s : String,
      pixelDataToSignedInt [s] =
        [if 32768 ≤ parseHexJS s ∧ parseHexJS s < 65536 then
          (parseHexJS s : Int) - 65536
        else (parseHexJS s : Int)]) ∧
    pixelDataToSignedInt ["8000"] = [-32768] ∧
    pixelDataToSignedInt ["80"] = [128] := by
  refine ⟨fun s => ?_, by decide, by decide⟩
  simp only [pixelDataToSignedInt, List.map_cons, List.map_nil,
    jsToStringBase_eq_baseRep 2 (parseHexJS s) (by omega)]
  by_cases h : 32768 ≤ parseHexJS s ∧ parseHexJS s < 65536
  · rw [if_pos ((baseRep_two_sixteen_iff (parseHexJS s)).mpr h), if_pos h]
    have hlen : (baseRep 2 (parseHexJS s)).length = 16 :=
      ((baseRep_two_sixteen_iff (parseHexJS s)).mpr h).2
    have hxor : parseBin ((baseRep 2 (parseHexJS s)).map
        (fun b => if b = '0' then '1' else '0')) = 65535 - parseHexJS s := by
      rw [parseBin_flip _ (baseRep_two_digits (parseHexJS s)), hlen,
        parseBin_baseRep]
      norm_num
    rw [hxor]
    obtain ⟨h1, h2⟩ := h
    have hne : -(((65535 - parseHexJS s : Nat) : Int) + 1) ≠ 0 := by omega
    rw [if_neg hne]
    simp only [List.cons.injEq, and_true]
    omega
  · rw [if_neg (fun hc => h ((baseRep_two_sixteen_iff (parseHexJS s)).mp hc)),
      if_neg h, parseBin_baseRep]

/-! ## Safe-key lemmas (claim C9) -/

/-- The core digit character agrees with the JavaScript one on all
base-16 digits. -/
theorem digitChar_eq_digitCharJS (d : Nat) (h : d < 16) :
    Nat.digitChar d = digitCharJS d := by
  interval_cases d <;> rfl

/-- Decimal digit characters decode back to their value. -/
theorem digitCharJS_val10 (d : Nat) (h : d < 10) :
    (digitCharJS d).toNat - 48 = d := by
  interval_cases d <;> rfl

/-- The fuel-driven core decimal rendering agrees with the well-founded
digit string. -/
theorem toDigitsCore_eq_baseRep :
    ∀ (fuel n : Nat) (acc : List Char), 1 ≤ fuel → n < 10 ^ fuel →
      Nat.toDigitsCore 10 fuel n acc = baseRep 10 n ++ acc := by
  intro fuel
  induction fuel with
  | zero => intro n acc h1 _; omega
  | succ f ih =>
    intro n acc _ hlt
    by_cases hn : n < 10
    · have hdiv : n / 10 = 0 := by omega
      simp only [Nat.toDigitsCore, hdiv, if_pos rfl]
      rw [baseRep, dif_pos (Or.inl hn), Nat.mod_eq_of_lt hn,
        digitChar_eq_digitCharJS n (by omega)]
      rfl
    · have hf : 1 ≤ f := by
        rcases Nat.eq_zero_or_pos f with hf0 | hf0
        · subst hf0
          rw [pow_one] at hlt
          omega
        · exact hf0
      have hdiv0 : ¬ n / 10 = 0 := by
        have := Nat.div_pos (by omega : 10 ≤ n) (by omega : 0 < 10)
        omega
      have hdiv : n / 10 < 10 ^ f := by
        rw [Nat.div_lt_iff_lt_mul (by omega)]
        calc n < 10 ^ (f + 1) := hlt
        _ = 10 ^ f * 10 := by ring
      simp only [Nat.toDigitsCore, hdiv0, if_neg hdiv0]
      rw [ih (n / 10) _ hf hdiv]
      conv_rhs => rw [baseRep, dif_neg (by omega)]
      rw [digitChar_eq_digitCharJS (n % 10) (by omega)]
      simp

/-- `Nat.repr` renders exactly the well-founded decimal digit string. -/
theorem natRepr_eq_baseRep (n : Nat) :
    (Nat.repr n).data = baseRep 10 n := by
  have hpow : n < 10 ^ (n + 1) := by
    calc n < 2 ^ n := Nat.lt_two_pow n
    _ ≤ 10 ^ n := Nat.pow_le_pow_left (by omega) n
    _ ≤ 10 ^ (n + 1) := Nat.pow_le_pow_right (by omega) (by omega)
  have : Nat.toDigits 10 n = baseRep 10 n := by
    rw [Nat.toDigits, toDigitsCore_eq_baseRep (n + 1) n [] (by omega) hpow]
    simp
  show Nat.toDigits 10 n = baseRep 10 n
  exact this

/-- `decVal` of a string extended by one digit. -/
theorem decVal_snoc (cs : List Char) (c : Char) :
    decVal (cs ++ [c]) = decVal cs * 10 + (c.toNat - 48) := by
  rw [decVal, List.foldl_append]
  rfl

/-- Round trip: the decimal digit string of `n` decodes back to `n`. -/
theorem decVal_baseRep10 : ∀ n : Nat, decVal (baseRep 10 n) = n := by
  intro n
  induction n using Nat.strong_induction_on with
  | _ n ih =>
    by_cases hn : n < 10
    · rw [baseRep, dif_pos (Or.inl hn)]
      have : decVal [digitCharJS n] = (digitCharJS n).toNat - 48 := by
        rw [decVal]
        simp
      rw [this, digitCharJS_val10 n hn]
    · rw [baseRep, dif_neg (by omega), decVal_snoc,
        ih (n / 10) (Nat.div_lt_self (by omega) (by omega)),
        digitCharJS_val10 (n % 10) (by omega)]
      omega

/-- The decimal rendering of naturals is injective. -/
theorem natRepr_inj (i j : Nat) (h : Nat.repr i = Nat.repr j) : i = j := by
  have hd := congrArg String.data h
  rw [natRepr_eq_baseRep, natRepr_eq_baseRep] at hd
  have := congrArg decVal hd
  rwa [decVal_baseRep10, decVal_baseRep10] at this

/-- Safe keys with distinct indices are distinct strings. -/
theorem mkKey_inj (k : String) (i j : Nat) (h : mkKey k i = mkKey k j) :
    i = j := by
  apply natRepr_inj
  have hd := congrArg String.data h
  simp only [mkKey, String.data_append] at hd
  exact String.ext (List.append_cancel_left hd)

/-- A decimal digit string is never empty. -/
theorem baseRep_ne_nil (b n : Nat) : baseRep b n ≠ [] := by
  rw [baseRep]
  split
  · simp
  · simp

/-- A safe key is never the bare keyword: it is strictly longer. -/
theorem mkKey_ne_bare (k : String) (i : Nat) : mkKey k i ≠ k := by
  intro h
  have hl := congrArg String.length h
  rw [mkKey, String.length_append, String.length_append] at hl
  have h1 : (Nat.repr i).length ≥ 1 := by
    have hne := baseRep_ne_nil 10 i
    have hdata := natRepr_eq_baseRep i
    rcases hb : baseRep 10 i with _ | ⟨c, cs⟩
    · exact absurd hb hne
    · have : (Nat.repr i).data.length = (c :: cs).length := by
        rw [hdata, hb]
      simp only [List.length_cons] at this
      have hlen : (Nat.repr i).length = cs.length + 1 := this
      omega
  have h2 : ("-" : String).length = 1 := rfl
  omega

/-- The `getSafeKey` scan: if the keys `key-start … key-(start+t-1)` are
all present, `key-(start+t)` is absent, and the fuel covers the `t`
occupied steps, the scan returns `key-(start+t)`. -/
theorem getSafeKeyFrom_spec (obj : Dataset) (k : String) :
    ∀ (t start fuel : Nat), t ≤ fuel →
      (∀ j, j < t → hasKey obj (mkKey k (start + j)) = true) →
      hasKey obj (mkKey k (start + t)) = false →
      getSafeKeyFrom obj k start fuel = mkKey k (start + t) := by
  intro t
  induction t with
  | zero =>
    intro start fuel _ _ habs
    rcases fuel with _ | f
    · rfl
    · rw [getSafeKeyFrom]
      simp only [Nat.add_zero] at habs
      rw [habs]
      simp
  | succ t ih =>
    intro start fuel hle hpres habs
    rcases fuel with _ | f
    · omega
    · rw [getSafeKeyFrom]
      have h0 : hasKey obj (mkKey k start) = true := by
        have := hpres 0 (by omega)
        simpa using this
      rw [h0]
      simp only [if_true]
      have harith : start + 1 + t = start + (t + 1) := by omega
      rw [ih (start + 1) f (by omega)
        (fun j hj => by
          have := hpres (j + 1) (by omega)
          rwa [show start + (j + 1) = start + 1 + j by omega] at this)
        (by rwa [harith]), harith]

/-- The `getSafeKey` scan always returns a suffixed key
`key-(start + t)` for some `t`. -/
theorem getSafeKeyFrom_shape (obj : Dataset) (k : String) :
    ∀ (fuel start : Nat), ∃ t, getSafeKeyFrom obj k start fuel =
      mkKey k (start + t) := by
  intro fuel
  induction fuel with
  | zero => intro start; exact ⟨0, rfl⟩
  | succ f ih =>
    intro start
    rw [getSafeKeyFrom]
    by_cases h : hasKey obj (mkKey k start) = true
    · rw [h]
      simp only [if_true]
      obtain ⟨t, ht⟩ := ih (start + 1)
      exact ⟨t + 1, by rw [ht]; congr 1; omega⟩
    · rw [Bool.not_eq_true] at h
      rw [h]
      simp only [Bool.false_eq_true, if_false]
      exact ⟨0, by simp⟩

/-- A present key is a member of the key list. -/
theorem hasKey_mem (ds : Dataset) (x : String) (h : hasKey ds x = true) :
    x ∈ ds.map Prod.fst := by
  simp only [hasKey, List.any_eq_true] at h
  obtain ⟨p, hp, hpe⟩ := h
  simp only [beq_iff_eq] at hpe
  exact List.mem_map.mpr ⟨p, hp, hpe⟩

/-- Inserting tags with a common keyword `k` into a state whose occupied
`k`-suffixed keys are exactly `k-1 … k-m` appends exactly the keys
`k-(m+1), k-(m+2), …` in order. -/
theorem insertTags_keys_aux (k : String) :
    ∀ (tags : List DTag) (m : Nat) (pre : Dataset),
      (∀ t ∈ tags, t.keyword = k) →
      (∀ i : Nat, (hasKey pre (mkKey k (i + 1)) = true ↔ i < m)) →
      (insertTags pre tags).map Prod.fst =
        pre.map Prod.fst ++
          (List.range tags.length).map (fun j => mkKey k (m + j + 1)) := by
  intro tags
  induction tags with
  | nil => intro m pre _ _; simp [insertTags]
  | cons t rest ih =>
    intro m pre hkw hstate
    have hmle : m ≤ pre.length := by
      have hinj : Function.Injective (fun i : Nat => mkKey k (i + 1)) := by
        intro a b hab
        have := mkKey_inj k (a + 1) (b + 1) hab
        omega
      have hsub : ((List.range m).map (fun i => mkKey k (i + 1))) ⊆
          pre.map Prod.fst := by
        intro x hx
        simp only [List.mem_map, List.mem_range] at hx
        obtain ⟨i, hi, rfl⟩ := hx
        exact hasKey_mem pre _ ((hstate i).mpr hi)
      have hnd : ((List.range m).map (fun i => mkKey k (i + 1))).Nodup :=
        (List.nodup_range m).map hinj
      have := (List.subperm_of_subset hnd hsub).length_le
      simpa using this
    have hsafe : getSafeKey pre k = mkKey k (1 + m) := by
      rw [getSafeKey]
      refine getSafeKeyFrom_spec pre k m 1 pre.length hmle
        (fun j hj => ?_) ?_
      · rw [show (1 : Nat) + j = j + 1 by omega]
        exact (hstate j).mpr hj
      · rw [show (1 : Nat) + m = m + 1 by omega]
        exact Bool.eq_false_iff.mpr (fun hc => by
          have := (hstate m).mp hc
          omega)
    have hkt : t.keyword = k := hkw t (by simp)
    have hnew : ∀ i : Nat,
        (hasKey (insertTag pre t) (mkKey k (i + 1)) = true ↔ i < m + 1) := by
      intro i
      rw [insertTag, hkt, hsafe]
      simp only [hasKey, List.any_append, List.any_cons, List.any_nil,
        Bool.or_eq_true, Bool.or_false, beq_iff_eq]
      constructor
      · rintro (hp | he)
        · have := (hstate i).mp hp
          omega
        · have := mkKey_inj k (1 + m) (i + 1) he
          omega
      · intro hi
        by_cases hcase : i < m
        · exact Or.inl ((hstate i).mpr hcase)
        · refine Or.inr ?_
          congr 1
          omega
    have hstep : insertTags pre (t :: rest) = insertTags (insertTag pre t) rest := rfl
    rw [hstep, ih (m + 1) (insertTag pre t) (fun x hx => hkw x (by simp [hx])) hnew]
    have hins : (insertTag pre t).map Prod.fst =
        pre.map Prod.fst ++ [mkKey k (1 + m)] := by
      rw [insertTag, hkt, hsafe]
      simp
    rw [hins, List.length_cons, List.range_succ_eq_map]
    simp only [List.map_cons, List.map_map, List.append_assoc,
      List.singleton_append]
    congr 2
    · congr 1
      omega
    · apply List.map_congr_left
      intro j _
      simp only [Function.comp]
      congr 1
      omega

/-- C9: inserting `n` elements whose keyword is `k` into a dataset that
holds no `k-suffixed` key yet produces exactly the keys
`k-1, k-2, …, k-n`, in insertion order; and the safe key returned by
`getSafeKey` always carries a `-i` suffix with `i ≥ 1` — the bare
keyword is never used, even for the first occurrence. -/
theorem safe_keys_sequential :
    (∀ (ds : Dataset) (k : String) (tags : List DTag),
      (∀ t ∈ tags, t.keyword = k) →
      (∀ i : Nat, hasKey ds (mkKey k (i + 1)) = false) →
      (insertTags ds tags).map Prod.fst =
        ds.map Prod.fst ++
          (List.range tags.length).map (fun j => mkKey k (j + 1))) ∧
    (∀ (obj : Dataset) (key : String),
      ∃ i, 1 ≤ i ∧ getSafeKey obj key = mkKey key i ∧
        getSafeKey obj key ≠ key) := by
  constructor
  · intro ds k tags hkw hds
    have h := insertTags_keys_aux k tags 0 ds hkw (fun i => by
      rw [hds i]
      simp)
    simpa using h
  · intro obj key
    obtain ⟨t, ht⟩ := getSafeKeyFrom_shape obj key obj.length 1
    refine ⟨1 + t, by omega, ?_, ?_⟩
    · rw [getSafeKey]
      exact ht
    · rw [getSafeKey, ht]
      exact mkKey_ne_bare key (1 + t)

/-- C9 (witness): inserting three tags with keyword `PatientName` into
the empty dataset yields the keys `PatientName-1`, `PatientName-2`,
`PatientName-3` in order. -/
theorem safe_keys_sequential_witness :
    (insertTags [] [truncTag, truncTag, truncTag]).map Prod.fst =
      ["PatientName-1", "PatientName-2", "PatientName-3"] := by
  have h := safe_keys_sequential.1 [] "PatientName" [truncTag, truncTag, truncTag]
    (by
      intro t ht
      simp only [List.mem_cons, List.not_mem_nil, or_false] at ht
      rcases ht with rfl | rfl | rfl <;> rfl)
    (fun i => by simp [hasKey])
  rw [h]
  decide
